import Mathlib

/-!
Shallow embedding of `Закон Зипфа 2.0/zipf_corpus.py`.

The numerical core (`get_words`, `analyze_text`, `analyze_corpus`) is
translated function-by-function.  Python floats are modelled as exact
rationals (`ℚ`); Python division, which raises `ZeroDivisionError` on a
zero denominator, is modelled by `pydiv` returning `Except PyErr ℚ`, and
`analyze_text` is written in the `Except` monad so that an uncaught
exception propagates exactly as in Python.  Character-level modelling
(`\w`, `str.lower`, `str.isdigit`) is restricted to the scripts the
corpus uses (ASCII and the Unicode Cyrillic block); this restriction is
noted at each definition.
-/

namespace Zipf

/-- Failure conditions.  `zeroDivisionError` models Python's
`ZeroDivisionError`, the only exception the numerical core can raise.
`insufficientData` is the explicit "insufficient data" signal described
by the spec; it is declared only so that the spec's error-handling claim
can be stated and is never produced by the code. -/
inductive PyErr where
  | zeroDivisionError
  | insufficientData
deriving DecidableEq, Repr

/-- A character matched by the regex `\w` (`re.findall(r"\w+", ...)` with
`re.UNICODE`): letters, digits or underscore.  Model restricted to ASCII
alphanumerics, underscore, and the Unicode Cyrillic block
U+0400–U+04FF. -/
def pyIsWordChar (c : Char) : Bool :=
  c.isAlpha || c.isDigit || c = '_' || (0x400 ≤ c.toNat && c.toNat ≤ 0x4FF)

/-- One character of Python's `str.lower()`.  Model restricted to ASCII
(via `Char.toLower`) plus the Russian Cyrillic uppercase letters
А–Я (U+0410–U+042F, mapped by +0x20) and Ё (U+0401 → ё U+0451). -/
def pyToLowerChar (c : Char) : Char :=
  if 0x410 ≤ c.toNat ∧ c.toNat ≤ 0x42F then Char.ofNat (c.toNat + 0x20)
  else if c.toNat = 0x401 then Char.ofNat 0x451
  else c.toLower

/-- `text.lower()`. -/
def pyLower (s : String) : String :=
  String.mk (s.toList.map pyToLowerChar)

/-- Worker for `re.findall(r"\w+", ...)`: scans the character list and
collects maximal runs of word characters; `cur` is the current run,
reversed. -/
def findallGo (cur : List Char) : List Char → List String
  | [] => if cur = [] then [] else [String.mk cur.reverse]
  | c :: cs =>
    if pyIsWordChar c then findallGo (c :: cur) cs
    else if cur = [] then findallGo [] cs
    else String.mk cur.reverse :: findallGo [] cs

/-- `re.findall(r"\w+", s, flags=re.UNICODE)`: the maximal runs of word
characters of `s`, in order. -/
def pyFindallWords (s : String) : List String :=
  findallGo [] s.toList

/-- `w.isdigit()`: `w` is non-empty and every character is a digit.
Model restricted to ASCII digits. -/
def pyStrIsDigit (w : String) : Bool :=
  !(w.toList.isEmpty) && w.toList.all Char.isDigit

/-- The test `'а' <= w[0] <= 'я'` from `get_words` (line 159): the first
character lies in the lowercase Russian range U+0430–U+044F.  Note this
range excludes ё (U+0451). -/
def firstCharInRussianRange (w : String) : Bool :=
  match w.toList with
  | [] => false
  | c :: _ => 'а' ≤ c && c ≤ 'я'

/-- A character of the Unicode Cyrillic block U+0400–U+04FF.  This is
the formalisation of the spec's phrase "Cyrillic letter"; it is used
only in claim statements, never by the embedded code. -/
def isCyrillicChar (c : Char) : Bool :=
  0x400 ≤ c.toNat && c.toNat ≤ 0x4FF

/-- `BASE_STOPWORDS` (transcribed verbatim; the Python `set` literal is
modelled as a list, membership being all that is ever used). -/
def BASE_STOPWORDS : List String :=
  ["и", "в", "во", "на", "не", "что", "он", "она", "оно", "они",
   "я", "ты", "вы", "мы",
   "а", "но", "как", "так", "же",
   "с", "со", "к", "ко", "у", "от", "до", "по", "из", "за", "над", "под",
   "это", "тогда", "там", "тут", "здесь",
   "его", "ее", "их", "ему", "ей", "им",
   "бы", "ли", "то", "вот", "уж", "ну",
   "для", "при", "без", "об", "про", "надо",
   "да", "или", "если", "чтобы",
   "о", "об", "был", "было", "были",
   "ещё", "еще", "уже", "только", "всё", "все", "рис",
   "in", "on", "to", "and", "the", "is", "of", "for", "from", "by"]

/-- `PERSONAL_STOP.get(filename, set())`: the per-file stopword override
table, transcribed verbatim; an unknown filename yields the empty
set. -/
def PERSONAL_STOP (filename : String) : List String :=
  if filename = "arina.txt" then
    ["i", "j", "k", "double", "float"]
  else if filename = "Fedorov_MV.txt" then
    ["м", "н", "ф", "кг", "мм", "см", "мпа", "м2", "м3",
     "расч", "форм", "табл", "рис"]
  else if filename = "kolesnikova_ds.txt" then
    ["self", "score", "z", "x", "y",
     "рисунок", "табл", "png", "jpg", "ктр"]
  else if filename = "kucheryavaya_mi.txt" then
    ["float", "vec3", "gl", "shader", "f", "t", "i", "e"]
  else if filename = "kuznetsova_av.txt" then
    ["service", "desk", "rpa", "naumen", "itsm"]
  else if filename = "Miroshnichenko_DA.txt" then
    ["бывало", "только", "ещё", "еще",
     "было", "был", "была",
     "степан", "трофимович"]
  else if filename = "ozhegova_ea_VKR.txt" then
    ["do", "enddo", "integer", "subroutine", "intent",
     "real", "double", "module", "contains", "use",
     "endif", "if", "then", "else",
     "l1", "l2", "x1", "inz", "tmp", "arr"]
  else if filename = "Patalakha_ad_VKR.txt" then
    ["кв", "вкр", "глава", "табл", "рис"]
  else if filename = "Sokolova_IP.txt" then
    ["бд", "sql", "select", "from", "join",
     "табл", "рис", "json", "быть", "может"]
  else if filename = "Valchuk_LV.txt" then
    ["ооо", "зао", "оао", "агроторг", "ооо", "ooo",
     "табл", "рис", "также"]
  else if filename = "vilydanova_la.txt" then
    ["пао", "оао", "сургутнефтегаз", "роснефть", "газпром",
     "лукойл", "нефтегаз", "табл", "рис",
     "акционерное", "общество"]
  else []

/-- The filter body of `get_words` (lines 145–163): a word is kept iff
none of the four `continue` conditions fires — (1) it is in the combined
stop list, (2) `w.isdigit()`, (3) `len(w) == 1`,
(4) `len(w) <= 3 and not ('а' <= w[0] <= 'я')`. -/
def keepWord (stop : List String) (w : String) : Bool :=
  !(stop.contains w) && !(pyStrIsDigit w) && !(w.length == 1) &&
    !(decide (w.length ≤ 3) && !(firstCharInRussianRange w))

/-- `get_words(text, filename)` (lines 125–165): lowercase, split into
`\w+` runs, and filter by the combined stop list and the three
heuristics.  `stop = set(BASE_STOPWORDS) | set(personal)` is modelled by
list concatenation (only membership is used). -/
def get_words (text : String) (filename : String) : List String :=
  (pyFindallWords (pyLower text)).filter
    (keepWord (BASE_STOPWORDS ++ PERSONAL_STOP filename))

/-- The keys of `Counter(words)` in insertion order, i.e. the distinct
words of `words` ordered by first occurrence (Python dicts preserve
insertion order). -/
def counterKeys : List String → List String
  | [] => []
  | w :: ws => w :: (counterKeys ws).filter (fun v => v ≠ w)

/-- `list(Counter(words).items())`: each distinct word, in first
occurrence order, paired with its number of occurrences. -/
def counterItems (words : List String) : List (String × ℕ) :=
  (counterKeys words).map (fun w => (w, words.count w))

/-- Insert an item into a descending-by-count list, after every element
of count `≥` its own (so the result of sorting with it is the stable
descending sort). -/
def insertByCount (x : String × ℕ) : List (String × ℕ) → List (String × ℕ)
  | [] => [x]
  | y :: ys => if y.2 ≤ x.2 then x :: y :: ys else y :: insertByCount x ys

/-- Stable sort by count, descending: the order produced by CPython's
`sorted(items, key=itemgetter(1), reverse=True)` (a stable sort that
keeps equal-count items in their original relative order), realised as a
stable insertion sort. -/
def sortByCountDesc : List (String × ℕ) → List (String × ℕ)
  | [] => []
  | x :: xs => insertByCount x (sortByCountDesc xs)

/-- `Counter(words).most_common()` (line 174): all `(word, count)` pairs
sorted by count descending, ties kept in first-insertion order. -/
def most_common (words : List String) : List (String × ℕ) :=
  sortByCountDesc (counterItems words)

/-- Lines 174–177 of `analyze_text`: `sorted_items`, truncated with
`sorted_items[:top_n]` only when `top_n` is truthy (non-zero). -/
def rankedItems (words : List String) (top_n : ℕ) : List (String × ℕ) :=
  if top_n ≠ 0 then (most_common words).take top_n else most_common words

/-- Python division on rationals: raises `ZeroDivisionError` on a zero
denominator, otherwise yields the exact quotient. -/
def pydiv (a b : ℚ) : Except PyErr ℚ :=
  if b = 0 then Except.error PyErr.zeroDivisionError else Except.ok (a / b)

/-- The result `dict` of `analyze_text` (lines 207–217). -/
structure ZipfResult where
  total_words : ℕ
  unique_words : ℕ
  ranks : List ℕ
  freqs_rel : List ℚ
  freqs_theor : List ℚ
  C_mean : ℚ
  C_opt : ℚ
  mse : ℚ
  top_list : List (String × ℕ)
deriving DecidableEq, Repr

/-- The estimator core of `analyze_text` (lines 179–217), parameterised
by the already-ranked window — the spec's "Zipf Estimator" (§4.3).  The
source builds `ranks`, `freqs_rel` and `const_fr` in one loop over
`sorted_items` (lines 185–189); here `ranks = [1, …, n]` is written
directly as `List.range' 1 n` and the other two lists as a `mapM` and a
`zipWith` over the same window, element for element the same values in
the same order.  Each Python division is a `pydiv`, sequenced in source
order, so the first zero denominator raises exactly as in Python. -/
def estimate (total_words : ℕ) (unique_words : ℕ)
    (sorted_items : List (String × ℕ)) : Except PyErr ZipfResult := do
  let ranks := List.range' 1 sorted_items.length
  let freqs_rel ← sorted_items.mapM (fun item => pydiv (item.2 : ℚ) (total_words : ℚ))
  let const_fr := List.zipWith (fun f (r : ℕ) => f * (r : ℚ)) freqs_rel ranks
  let C_mean ← pydiv const_fr.sum (const_fr.length : ℚ)
  let numTerms ← (freqs_rel.zip ranks).mapM (fun p => pydiv p.1 (p.2 : ℚ))
  let denomTerms ← ranks.mapM (fun (r : ℕ) => pydiv 1 ((r : ℚ) * (r : ℚ)))
  let C_opt ← pydiv numTerms.sum denomTerms.sum
  let freqs_theor ← ranks.mapM (fun (r : ℕ) => pydiv C_opt (r : ℚ))
  let mse ← pydiv (List.zipWith (fun f t => (f - t) ^ 2) freqs_rel freqs_theor).sum
    (ranks.length : ℚ)
  return { total_words := total_words, unique_words := unique_words,
           ranks := ranks, freqs_rel := freqs_rel, freqs_theor := freqs_theor,
           C_mean := C_mean, C_opt := C_opt, mse := mse,
           top_list := sorted_items.take 20 }

/-- `analyze_text(words, top_n)` (lines 168–217): `total_words`,
`Counter`, `most_common`, truncation, then the estimator core. -/
def analyze_text (words : List String) (top_n : ℕ) : Except PyErr ZipfResult :=
  estimate words.length (counterKeys words).length (rankedItems words top_n)

/-- `analyze_corpus` (lines 239–262), with file reading abstracted away:
the folder is modelled as the list of `(name, decoded text)` pairs in
iteration order.  Each document is processed in turn by
`get_words`/`analyze_text` and its result recorded; since the loop body
catches nothing, an exception in one document aborts the whole loop and
no results are returned. -/
def analyze_corpus (docs : List (String × String)) (top_n : ℕ) :
    Except PyErr (List (String × ZipfResult)) :=
  docs.mapM (fun d => do
    let res ← analyze_text (get_words d.2 d.1) top_n
    return (d.1, res))

/-! ### Infrastructure: the stable descending sort -/

theorem insertByCount_decomp (x : String × ℕ) (l : List (String × ℕ)) :
    ∃ l₁ l₂, insertByCount x l = l₁ ++ x :: l₂ ∧ l = l₁ ++ l₂ ∧
      ∀ y ∈ l₁, ¬ (y.2 ≤ x.2) := by
  induction l with
  | nil => exact ⟨[], [], rfl, rfl, by simp⟩
  | cons y ys ih =>
    by_cases h : y.2 ≤ x.2
    · exact ⟨[], y :: ys, by simp [insertByCount, h], rfl, by simp⟩
    · obtain ⟨l₁, l₂, h1, h2, h3⟩ := ih
      refine ⟨y :: l₁, l₂, ?_, ?_, ?_⟩
      · simp [insertByCount, h, h1]
      · simp [h2]
      · intro z hz
        rcases List.mem_cons.mp hz with hz | hz
        · subst hz; exact h
        · exact h3 z hz

theorem insertByCount_perm (x : String × ℕ) (l : List (String × ℕ)) :
    (insertByCount x l).Perm (x :: l) := by
  obtain ⟨l₁, l₂, h1, h2, _⟩ := insertByCount_decomp x l
  rw [h1, h2]
  exact List.perm_middle

theorem sortByCountDesc_perm (l : List (String × ℕ)) :
    (sortByCountDesc l).Perm l := by
  induction l with
  | nil => exact List.Perm.refl _
  | cons x xs ih =>
    exact ((insertByCount_perm x (sortByCountDesc xs)).trans (ih.cons x))

theorem pairwise_insertByCount (x : String × ℕ) (l : List (String × ℕ))
    (h : l.Pairwise (fun a b => b.2 ≤ a.2)) :
    (insertByCount x l).Pairwise (fun a b => b.2 ≤ a.2) := by
  induction l with
  | nil => simp [insertByCount]
  | cons y ys ih =>
    rcases List.pairwise_cons.mp h with ⟨hy, hys⟩
    by_cases hxy : y.2 ≤ x.2
    · rw [insertByCount, if_pos hxy]
      refine List.pairwise_cons.mpr ⟨?_, h⟩
      intro z hz
      rcases List.mem_cons.mp hz with hz | hz
      · subst hz; exact hxy
      · exact le_trans (hy z hz) hxy
    · rw [insertByCount, if_neg hxy]
      refine List.pairwise_cons.mpr ⟨?_, ih hys⟩
      intro z hz
      have hz2 : z ∈ x :: ys := (insertByCount_perm x ys).mem_iff.mp hz
      rcases List.mem_cons.mp hz2 with hz2 | hz2
      · subst hz2; exact le_of_not_le hxy
      · exact hy z hz2

theorem sortByCountDesc_pairwise (l : List (String × ℕ)) :
    (sortByCountDesc l).Pairwise (fun a b => b.2 ≤ a.2) := by
  induction l with
  | nil => simp [sortByCountDesc]
  | cons x xs ih => exact pairwise_insertByCount x _ ih

theorem sublist_sortByCountDesc {a b : String × ℕ} {l : List (String × ℕ)}
    (h : [a, b].Sublist l) (hab : b.2 ≤ a.2) :
    [a, b].Sublist (sortByCountDesc l) := by
  induction l with
  | nil => cases h
  | cons x xs ih =>
    obtain ⟨l₁, l₂, e1, e2, hgt⟩ := insertByCount_decomp x (sortByCountDesc xs)
    cases h with
    | cons _ h' =>
      have hs : [a, b].Sublist (l₁ ++ l₂) := by
        have := ih h'
        rwa [e2] at this
      rw [sortByCountDesc, e1]
      exact hs.trans ((List.append_sublist_append_left l₁).mpr
        (List.sublist_cons_self x l₂))
    | cons₂ _ h' =>
      have hb : b ∈ sortByCountDesc xs :=
        (sortByCountDesc_perm xs).mem_iff.mpr (List.singleton_sublist.mp h')
      have hb2 : b ∈ l₂ := by
        rw [e2] at hb
        rcases List.mem_append.mp hb with hmem | hmem
        · exact absurd hab (hgt b hmem)
        · exact hmem
      rw [sortByCountDesc, e1]
      have hx : [a, b].Sublist (a :: l₂) :=
        (List.singleton_sublist.mpr hb2).cons₂ a
      exact hx.trans (List.sublist_append_right l₁ (a :: l₂))

theorem pair_sublist_or {α : Type} {a b : α} {l : List α}
    (ha : a ∈ l) (hb : b ∈ l) (hne : a ≠ b) :
    [a, b].Sublist l ∨ [b, a].Sublist l := by
  induction l with
  | nil => cases ha
  | cons x xs ih =>
    rcases List.mem_cons.mp ha with hax | hax
    · subst hax
      have hbx : b ∈ xs := by
        rcases List.mem_cons.mp hb with hbx | hbx
        · exact absurd hbx.symm hne
        · exact hbx
      exact Or.inl ((List.singleton_sublist.mpr hbx).cons₂ a)
    · rcases List.mem_cons.mp hb with hbx | hbx
      · subst hbx
        exact Or.inr ((List.singleton_sublist.mpr hax).cons₂ b)
      · rcases ih hax hbx with h | h
        · exact Or.inl (h.cons x)
        · exact Or.inr (h.cons x)

theorem pair_sublist_antisymm {α : Type} {a b : α} {l : List α}
    (hnd : l.Nodup) (h1 : [a, b].Sublist l) (h2 : [b, a].Sublist l) : a = b := by
  induction l with
  | nil => cases h1
  | cons x xs ih =>
    rcases List.nodup_cons.mp hnd with ⟨hx, hnd'⟩
    cases h1 with
    | cons _ h1' =>
      cases h2 with
      | cons _ h2' => exact ih hnd' h1' h2'
      | cons₂ _ h2' =>
        have : b ∈ xs := h1'.subset (by simp)
        exact absurd this hx
    | cons₂ _ h1' =>
      cases h2 with
      | cons _ h2' =>
        have : a ∈ xs := h2'.subset (by simp)
        exact absurd this hx
      | cons₂ _ h2' => rfl

/-! ### Infrastructure: the frequency table -/

theorem mem_counterKeys {v : String} {ws : List String} :
    v ∈ counterKeys ws ↔ v ∈ ws := by
  induction ws with
  | nil => simp [counterKeys]
  | cons w ws ih =>
    by_cases hv : v = w
    · subst hv; simp [counterKeys]
    · simp [counterKeys, List.mem_filter, hv, ih]

theorem counterKeys_nodup (ws : List String) : (counterKeys ws).Nodup := by
  induction ws with
  | nil => simp [counterKeys]
  | cons w ws ih =>
    rw [counterKeys, List.nodup_cons]
    constructor
    · intro hmem
      simpa using (List.mem_filter.mp hmem).2
    · exact ih.filter _

theorem counterKeys_ne_nil {ws : List String} (h : ws ≠ []) :
    counterKeys ws ≠ [] := by
  cases ws with
  | nil => exact absurd rfl h
  | cons w ws => simp [counterKeys]

theorem counterItems_nodup (words : List String) : (counterItems words).Nodup :=
  (counterKeys_nodup words).map (fun a b hab => congrArg Prod.fst hab)

theorem length_counterItems (words : List String) :
    (counterItems words).length = (counterKeys words).length :=
  List.length_map _ _

theorem most_common_perm (words : List String) :
    (most_common words).Perm (counterItems words) :=
  sortByCountDesc_perm _

theorem most_common_nodup (words : List String) : (most_common words).Nodup :=
  (most_common_perm words).nodup_iff.mpr (counterItems_nodup words)

theorem length_most_common (words : List String) :
    (most_common words).length = (counterKeys words).length := by
  rw [(most_common_perm words).length_eq, length_counterItems]

theorem rankedItems_sublist (words : List String) (n : ℕ) :
    (rankedItems words n).Sublist (most_common words) := by
  rw [rankedItems]
  split
  · exact List.take_sublist n _
  · exact List.Sublist.refl _

theorem rankedItems_ne_nil {words : List String} (h : words ≠ []) (n : ℕ) :
    rankedItems words n ≠ [] := by
  have hk : 0 < (counterKeys words).length :=
    List.length_pos.mpr (counterKeys_ne_nil h)
  have hmc : 0 < (most_common words).length := by rw [length_most_common]; exact hk
  rw [rankedItems]
  split
  · next hn =>
    refine List.ne_nil_of_length_pos ?_
    rw [List.length_take]
    omega
  · exact List.ne_nil_of_length_pos hmc

/-! ### Infrastructure: closed forms of the estimator fields

Each definition below is the pure value computed by the corresponding
line of `analyze_text` when no division fails, written over the ranked
window `items` and the total count `total`. -/

/-- The `ranks` list: `1, 2, …, len(sorted_items)`. -/
def ranksI (items : List (String × ℕ)) : List ℕ :=
  List.range' 1 items.length

/-- The `freqs_rel` list: `freq / total_words` per ranked item. -/
def relFreqsI (items : List (String × ℕ)) (total : ℕ) : List ℚ :=
  items.map (fun item => (item.2 : ℚ) / (total : ℚ))

/-- The `const_fr` list: `f_rel * rank`. -/
def constFrI (items : List (String × ℕ)) (total : ℕ) : List ℚ :=
  List.zipWith (fun f (r : ℕ) => f * (r : ℚ)) (relFreqsI items total) (ranksI items)

/-- `C_mean = sum(const_fr) / len(const_fr)`. -/
def cMeanI (items : List (String × ℕ)) (total : ℕ) : ℚ :=
  (constFrI items total).sum / ((constFrI items total).length : ℚ)

/-- `num = sum(f / r for f, r in zip(freqs_rel, ranks))`. -/
def sumFrOverR (items : List (String × ℕ)) (total : ℕ) : ℚ :=
  (((relFreqsI items total).zip (ranksI items)).map
    (fun p => p.1 / (p.2 : ℚ))).sum

/-- `denom = sum(1 / (r * r) for r in ranks)`. -/
def sumInvSq (items : List (String × ℕ)) : ℚ :=
  ((ranksI items).map (fun (r : ℕ) => (1 : ℚ) / ((r : ℚ) * (r : ℚ)))).sum

/-- `C_opt = num / denom`. -/
def cOptI (items : List (String × ℕ)) (total : ℕ) : ℚ :=
  sumFrOverR items total / sumInvSq items

/-- `freqs_theor`: `C_opt / r` per rank. -/
def theorFreqsI (items : List (String × ℕ)) (total : ℕ) : List ℚ :=
  (ranksI items).map (fun (r : ℕ) => cOptI items total / (r : ℚ))

/-- `mse = sum((f - t) ** 2 for f, t in zip(freqs_rel, freqs_theor)) / len(ranks)`. -/
def mseI (items : List (String × ℕ)) (total : ℕ) : ℚ :=
  (List.zipWith (fun f t => (f - t) ^ 2) (relFreqsI items total)
    (theorFreqsI items total)).sum / ((ranksI items).length : ℚ)

theorem except_bind_ok {α β : Type} (a : α) (k : α → Except PyErr β) :
    (Except.ok a >>= k : Except PyErr β) = k a := rfl

theorem except_bind_err {α β : Type} (e : PyErr) (k : α → Except PyErr β) :
    ((Except.error e : Except PyErr α) >>= k) = Except.error e := rfl

theorem mapM_pydiv_ok {α : Type} (f g : α → ℚ) (l : List α)
    (h : ∀ x ∈ l, g x ≠ 0) :
    l.mapM (fun x => pydiv (f x) (g x))
      = Except.ok (l.map (fun x => f x / g x)) := by
  induction l with
  | nil => rfl
  | cons a t ih =>
    rw [List.mapM_cons, ih (fun x hx => h x (List.mem_cons_of_mem a hx))]
    simp only [pydiv]
    rw [if_neg (h a (List.mem_cons_self a t))]
    rfl

theorem one_le_of_mem_range' {r n : ℕ} (h : r ∈ List.range' 1 n) : 1 ≤ r := by
  rw [List.mem_range'] at h
  obtain ⟨i, _, rfl⟩ := h
  omega

theorem rank_cast_ne_zero {r n : ℕ} (h : r ∈ List.range' 1 n) : (r : ℚ) ≠ 0 := by
  have h1 := one_le_of_mem_range' h
  exact_mod_cast Nat.one_le_iff_ne_zero.mp h1

theorem sumInvSq_pos {items : List (String × ℕ)} (h : items ≠ []) :
    0 < sumInvSq items := by
  apply List.sum_pos
  · intro x hx
    obtain ⟨r, hr, rfl⟩ := List.mem_map.mp hx
    simp only [ranksI] at hr
    have h1 : 0 < (r : ℚ) := by
      have h2 := one_le_of_mem_range' hr
      exact_mod_cast Nat.lt_of_lt_of_le Nat.zero_lt_one h2
    exact div_pos one_pos (mul_pos h1 h1)
  · intro hmap
    have hlen : items.length ≠ 0 := fun h0 => h (List.length_eq_zero.mp h0)
    have h3 := congrArg List.length hmap
    simp [ranksI, List.length_range'] at h3
    exact h h3

/-- Normal form of the estimator on a non-empty window: every division
succeeds and the result record is built from the closed forms above. -/
theorem estimate_ok (total uniq : ℕ) (items : List (String × ℕ))
    (htot : total ≠ 0) (hne : items ≠ []) :
    estimate total uniq items = Except.ok
      { total_words := total, unique_words := uniq,
        ranks := ranksI items, freqs_rel := relFreqsI items total,
        freqs_theor := theorFreqsI items total,
        C_mean := cMeanI items total, C_opt := cOptI items total,
        mse := mseI items total, top_list := items.take 20 } := by
  have hq : (total : ℚ) ≠ 0 := Nat.cast_ne_zero.mpr htot
  have hlen0 : items.length ≠ 0 := fun h0 => hne (List.length_eq_zero.mp h0)
  have h1 : items.mapM (fun item => pydiv (item.2 : ℚ) (total : ℚ))
      = Except.ok (relFreqsI items total) :=
    mapM_pydiv_ok _ _ _ (fun x _ => hq)
  have hzlen : (List.zipWith (fun f (r : ℕ) => f * (r : ℚ)) (relFreqsI items total)
      (List.range' 1 items.length)).length = items.length := by
    rw [List.length_zipWith, relFreqsI, List.length_map, List.length_range']
    omega
  have h2 : pydiv (List.zipWith (fun f (r : ℕ) => f * (r : ℚ)) (relFreqsI items total)
        (List.range' 1 items.length)).sum
      ((List.zipWith (fun f (r : ℕ) => f * (r : ℚ)) (relFreqsI items total)
        (List.range' 1 items.length)).length : ℚ)
      = Except.ok (cMeanI items total) := by
    simp only [pydiv]
    rw [if_neg]
    · rfl
    · rw [hzlen]
      exact Nat.cast_ne_zero.mpr hlen0
  have h3 : ((relFreqsI items total).zip (List.range' 1 items.length)).mapM
        (fun p => pydiv p.1 (p.2 : ℚ))
      = Except.ok (((relFreqsI items total).zip (List.range' 1 items.length)).map
        (fun p => p.1 / (p.2 : ℚ))) := by
    apply mapM_pydiv_ok
    intro p hp
    exact rank_cast_ne_zero (List.of_mem_zip hp).2
  have h4 : (List.range' 1 items.length).mapM
        (fun (r : ℕ) => pydiv 1 ((r : ℚ) * (r : ℚ)))
      = Except.ok ((List.range' 1 items.length).map
        (fun (r : ℕ) => (1 : ℚ) / ((r : ℚ) * (r : ℚ)))) := by
    apply mapM_pydiv_ok
    intro r hr
    exact mul_ne_zero (rank_cast_ne_zero hr) (rank_cast_ne_zero hr)
  have h5 : pydiv (((relFreqsI items total).zip (List.range' 1 items.length)).map
        (fun p => p.1 / (p.2 : ℚ))).sum
      ((List.range' 1 items.length).map
        (fun (r : ℕ) => (1 : ℚ) / ((r : ℚ) * (r : ℚ)))).sum
      = Except.ok (cOptI items total) := by
    simp only [pydiv]
    rw [if_neg]
    · rfl
    · exact ne_of_gt (sumInvSq_pos hne)
  have h6 : (List.range' 1 items.length).mapM
        (fun (r : ℕ) => pydiv (cOptI items total) (r : ℚ))
      = Except.ok (theorFreqsI items total) := by
    apply mapM_pydiv_ok
    intro r hr
    exact rank_cast_ne_zero hr
  have h7 : pydiv (List.zipWith (fun f t => (f - t) ^ 2) (relFreqsI items total)
        (theorFreqsI items total)).sum
      (((List.range' 1 items.length)).length : ℚ)
      = Except.ok (mseI items total) := by
    simp only [pydiv]
    rw [if_neg]
    · rfl
    · rw [List.length_range']
      exact Nat.cast_ne_zero.mpr hlen0
  simp only [estimate, h1, except_bind_ok, h2, h3, h4, h5, h6, h7]
  rfl

/-- `analyze_text` on a non-empty word list: the normal form. -/
theorem analyze_text_ok (words : List String) (n : ℕ) (h : words ≠ []) :
    analyze_text words n = Except.ok
      { total_words := words.length,
        unique_words := (counterKeys words).length,
        ranks := ranksI (rankedItems words n),
        freqs_rel := relFreqsI (rankedItems words n) words.length,
        freqs_theor := theorFreqsI (rankedItems words n) words.length,
        C_mean := cMeanI (rankedItems words n) words.length,
        C_opt := cOptI (rankedItems words n) words.length,
        mse := mseI (rankedItems words n) words.length,
        top_list := (rankedItems words n).take 20 } := by
  unfold analyze_text
  exact estimate_ok _ _ _ (fun h0 => h (List.length_eq_zero.mp h0))
    (rankedItems_ne_nil h n)

theorem analyze_text_nil (n : ℕ) :
    analyze_text [] n = Except.error PyErr.zeroDivisionError := by
  unfold analyze_text
  have hr : rankedItems [] n = [] := by
    simp [rankedItems, most_common, counterItems, counterKeys, sortByCountDesc]
  rw [hr]
  rfl

theorem analyze_text_error {words : List String} {n : ℕ} {e : PyErr}
    (h : analyze_text words n = Except.error e) :
    words = [] ∧ e = PyErr.zeroDivisionError := by
  cases words with
  | nil =>
    rw [analyze_text_nil n] at h
    exact ⟨rfl, by simpa using h.symm⟩
  | cons w ws =>
    rw [analyze_text_ok (w :: ws) n (by simp)] at h
    simp at h

theorem ok_words_ne_nil {words : List String} {n : ℕ} {res : ZipfResult}
    (h : analyze_text words n = Except.ok res) : words ≠ [] := by
  intro hw
  subst hw
  rw [analyze_text_nil] at h
  simp at h

/-! ### Infrastructure: least squares -/

theorem length_relFreqsI (items : List (String × ℕ)) (total : ℕ) :
    (relFreqsI items total).length = items.length := by
  simp [relFreqsI]

theorem length_ranksI (items : List (String × ℕ)) :
    (ranksI items).length = items.length := by
  simp [ranksI]

theorem sq_term_expand (f C q : ℚ) :
    (f - C / q) ^ 2 = f ^ 2 - 2 * C * (f / q) + C ^ 2 * (1 / (q * q)) := by
  rcases eq_or_ne q 0 with h | h
  · subst h
    simp
  · field_simp
    ring

theorem sqsum_expand (C : ℚ) (fs : List ℚ) (rs : List ℕ) :
    (List.zipWith (fun f (r : ℕ) => (f - C / (r : ℚ)) ^ 2) fs rs).sum
      = (List.zipWith (fun f (_ : ℕ) => f ^ 2) fs rs).sum
        - 2 * C * (List.zipWith (fun f (r : ℕ) => f / (r : ℚ)) fs rs).sum
        + C ^ 2 * (List.zipWith
            (fun (_ : ℚ) (r : ℕ) => (1 : ℚ) / ((r : ℚ) * (r : ℚ))) fs rs).sum := by
  induction fs generalizing rs with
  | nil => simp
  | cons f fs ih =>
    cases rs with
    | nil => simp
    | cons r rs =>
      simp only [List.zipWith_cons_cons, List.sum_cons, ih rs]
      rw [sq_term_expand]
      ring

theorem map_zip_eq_zipWith {α β γ : Type} (g : α → β → γ)
    (l1 : List α) (l2 : List β) :
    ((l1.zip l2).map (fun p => g p.1 p.2)) = List.zipWith g l1 l2 := by
  induction l1 generalizing l2 with
  | nil => simp
  | cons a l1 ih => cases l2 <;> simp [ih]

theorem zipWith_right_eq_map {α β γ : Type} (g : β → γ) (l1 : List α) (l2 : List β)
    (h : l1.length = l2.length) :
    List.zipWith (fun _ b => g b) l1 l2 = l2.map g := by
  induction l1 generalizing l2 with
  | nil =>
    cases l2 with
    | nil => simp
    | cons b l2 => simp at h
  | cons a l1 ih =>
    cases l2 with
    | nil => simp at h
    | cons b l2 =>
      simp only [List.zipWith_cons_cons, List.map_cons]
      rw [ih l2 (by simpa using h)]

theorem quad_min (S0 Sa Sb C : ℚ) (hb : 0 < Sb) :
    S0 - 2 * (Sa / Sb) * Sa + (Sa / Sb) ^ 2 * Sb
      ≤ S0 - 2 * C * Sa + C ^ 2 * Sb := by
  have hb0 : Sb ≠ 0 := ne_of_gt hb
  have key : (S0 - 2 * C * Sa + C ^ 2 * Sb)
      - (S0 - 2 * (Sa / Sb) * Sa + (Sa / Sb) ^ 2 * Sb)
      = Sb * (C - Sa / Sb) ^ 2 := by
    field_simp
    ring
  nlinarith [mul_nonneg hb.le (sq_nonneg (C - Sa / Sb))]

/-! ### The spec's worked example -/

/-- The token sequence of the spec's worked example
(`"кот кот пес кот мышь пес"` after tokenization). -/
def exampleTokens : List String :=
  ["кот", "кот", "пес", "кот", "мышь", "пес"]

/-- Its ranked frequency table. -/
def exampleItems : List (String × ℕ) :=
  [("кот", 3), ("пес", 2), ("мышь", 1)]

/-- The full result of `analyze_text` on the example with `top_n = 10`,
computed by hand: `C_mean = (3/6·1 + 2/6·2 + 1/6·3)/3 = 5/9 ≈ 0.556`,
`C_opt = (13/18)/(49/36) = 26/49`, `mse = 5/2646`. -/
def exampleResult : ZipfResult :=
  { total_words := 6, unique_words := 3, ranks := [1, 2, 3],
    freqs_rel := [1/2, 1/3, 1/6],
    freqs_theor := [26/49, 13/49, 26/147],
    C_mean := 5/9, C_opt := 26/49, mse := 5/2646,
    top_list := [("кот", 3), ("пес", 2), ("мышь", 1)] }

theorem rankedItems_example : rankedItems exampleTokens 10 = exampleItems := by
  decide

theorem ranksI_example : ranksI exampleItems = [1, 2, 3] := by
  decide

theorem relFreqsI_example : relFreqsI exampleItems 6 = [1/2, 1/3, 1/6] := by
  rw [relFreqsI, exampleItems]
  norm_num

theorem cOptI_example : cOptI exampleItems 6 = 26/49 := by
  rw [cOptI, sumFrOverR, sumInvSq, relFreqsI_example, ranksI_example]
  norm_num

theorem theorFreqsI_example :
    theorFreqsI exampleItems 6 = [26/49, 13/49, 26/147] := by
  rw [theorFreqsI, ranksI_example, cOptI_example]
  norm_num

theorem cMeanI_example : cMeanI exampleItems 6 = 5/9 := by
  rw [cMeanI, constFrI, relFreqsI_example, ranksI_example]
  norm_num

theorem mseI_example : mseI exampleItems 6 = 5/2646 := by
  rw [mseI, relFreqsI_example, theorFreqsI_example, ranksI_example]
  norm_num

/-- `analyze_text` on the worked example, evaluated. -/
theorem analyze_text_example :
    analyze_text exampleTokens 10 = Except.ok exampleResult := by
  rw [analyze_text_ok exampleTokens 10 (by decide), rankedItems_example]
  rw [show exampleTokens.length = 6 from by decide]
  rw [show (counterKeys exampleTokens).length = 3 from by decide]
  rw [ranksI_example, relFreqsI_example, theorFreqsI_example,
    cMeanI_example, cOptI_example, mseI_example]
  rw [show exampleItems.take 20 = exampleItems from by decide]
  rfl

theorem sumFrOverR_eq (items : List (String × ℕ)) (total : ℕ) :
    sumFrOverR items total
      = (List.zipWith (fun f (r : ℕ) => f / (r : ℚ))
          (relFreqsI items total) (ranksI items)).sum := by
  rw [sumFrOverR]
  congr 1
  exact map_zip_eq_zipWith (fun (f : ℚ) (r : ℕ) => f / (r : ℚ)) _ _

theorem sumInvSq_eq (items : List (String × ℕ)) (total : ℕ) :
    sumInvSq items
      = (List.zipWith (fun (_ : ℚ) (r : ℕ) => (1 : ℚ) / ((r : ℚ) * (r : ℚ)))
          (relFreqsI items total) (ranksI items)).sum := by
  rw [sumInvSq]
  congr 1
  exact (zipWith_right_eq_map (fun (r : ℕ) => (1 : ℚ) / ((r : ℚ) * (r : ℚ)))
    (relFreqsI items total) (ranksI items)
    (by rw [length_relFreqsI, length_ranksI])).symm

/-! ### The claims -/

/-- C1 (counterexample to the claim as stated): on the empty token
sequence — total 0, empty visible rank list — `analyze_text` does not
fail with the explicit "insufficient data" condition the claim
describes; it fails with the raw division-by-zero arithmetic error
raised by `C_mean = sum(const_fr) / len(const_fr)`. -/
theorem analyze_text_empty_not_insufficient :
    analyze_text [] 200 = Except.error PyErr.zeroDivisionError ∧
    PyErr.zeroDivisionError ≠ PyErr.insufficientData :=
  ⟨analyze_text_nil 200, by decide⟩

/-- C1 (amended): for every top-N cutoff, `analyze_text` on the empty
token sequence fails by raising the division-by-zero error, which
propagates to the caller (it does not silently return a value, but
there is no explicit "insufficient data" signal). -/
theorem analyze_text_empty_zero_division (n : ℕ) :
    analyze_text [] n = Except.error PyErr.zeroDivisionError :=
  analyze_text_nil n

/-- C2: whenever `analyze_text` returns a result, its least-squares
estimator equals the closed form `(Σ f_r / r) / (Σ 1 / r²)` over the
visible window, and that value minimizes `Σ (f_r - C/r)²` over every
scalar `C` (scalars modelled as exact rationals). -/
theorem C_opt_least_squares (words : List String) (n : ℕ) (res : ZipfResult)
    (h : analyze_text words n = Except.ok res) :
    res.C_opt = ((res.freqs_rel.zip res.ranks).map
        (fun p => p.1 / (p.2 : ℚ))).sum
      / ((res.ranks.map (fun (r : ℕ) => (1 : ℚ) / ((r : ℚ) * (r : ℚ)))).sum) ∧
    ∀ C : ℚ,
      (List.zipWith (fun f (r : ℕ) => (f - res.C_opt / (r : ℚ)) ^ 2)
        res.freqs_rel res.ranks).sum
      ≤ (List.zipWith (fun f (r : ℕ) => (f - C / (r : ℚ)) ^ 2)
        res.freqs_rel res.ranks).sum := by
  have hw : words ≠ [] := ok_words_ne_nil h
  rw [analyze_text_ok words n hw] at h
  obtain rfl := Except.ok.inj h
  refine ⟨rfl, ?_⟩
  intro C
  dsimp only
  rw [sqsum_expand (cOptI (rankedItems words n) words.length)
      (relFreqsI (rankedItems words n) words.length)
      (ranksI (rankedItems words n)),
    sqsum_expand C (relFreqsI (rankedItems words n) words.length)
      (ranksI (rankedItems words n))]
  rw [← sumFrOverR_eq, ← sumInvSq_eq (rankedItems words n) words.length]
  rw [show cOptI (rankedItems words n) words.length
    = sumFrOverR (rankedItems words n) words.length
      / sumInvSq (rankedItems words n) from rfl]
  exact quad_min _ _ _ C (sumInvSq_pos (rankedItems_ne_nil hw n))

/-- C2 witness: the closed form and the minimization, instantiated on
the worked example (comparison point `C = 1`). -/
theorem C_opt_least_squares_witness :
    analyze_text exampleTokens 10 = Except.ok exampleResult ∧
    exampleResult.C_opt = 26 / 49 ∧
    (List.zipWith (fun f (r : ℕ) => (f - exampleResult.C_opt / (r : ℚ)) ^ 2)
      exampleResult.freqs_rel exampleResult.ranks).sum
    ≤ (List.zipWith (fun f (r : ℕ) => (f - 1 / (r : ℚ)) ^ 2)
      exampleResult.freqs_rel exampleResult.ranks).sum :=
  ⟨analyze_text_example, rfl,
    (C_opt_least_squares exampleTokens 10 exampleResult analyze_text_example).2 1⟩

/-- C3: whenever `analyze_text` returns a result, the relative
frequencies are `count_r / total` over the ranked window and the mean
estimator is the arithmetic mean over ranks of `f_r · r`. -/
theorem C_mean_is_mean (words : List String) (n : ℕ) (res : ZipfResult)
    (h : analyze_text words n = Except.ok res) :
    res.freqs_rel = (rankedItems words n).map
      (fun item => (item.2 : ℚ) / (res.total_words : ℚ)) ∧
    res.C_mean = (List.zipWith (fun f (r : ℕ) => f * (r : ℚ))
      res.freqs_rel res.ranks).sum / (res.ranks.length : ℚ) := by
  have hw : words ≠ [] := ok_words_ne_nil h
  rw [analyze_text_ok words n hw] at h
  obtain rfl := Except.ok.inj h
  dsimp only
  refine ⟨rfl, ?_⟩
  have hL : (constFrI (rankedItems words n) words.length).length
      = (ranksI (rankedItems words n)).length := by
    simp [constFrI, relFreqsI, ranksI, List.length_zipWith]
  rw [show cMeanI (rankedItems words n) words.length
    = (constFrI (rankedItems words n) words.length).sum
      / ((constFrI (rankedItems words n) words.length).length : ℚ) from rfl]
  rw [hL]
  rfl

/-- C3 witness: the worked example — counts `{кот: 3, пес: 2, мышь: 1}`,
rank list `[(1, кот, 3), (2, пес, 2), (3, мышь, 1)]`, total 6, and
`C_mean = (3/6·1 + 2/6·2 + 1/6·3)/3 = 5/9 ≈ 0.556`. -/
theorem C_mean_is_mean_witness :
    analyze_text exampleTokens 10 = Except.ok exampleResult ∧
    rankedItems exampleTokens 10 = [("кот", 3), ("пес", 2), ("мышь", 1)] ∧
    exampleTokens.length = 6 ∧
    exampleResult.total_words = 6 ∧
    exampleResult.ranks = [1, 2, 3] ∧
    exampleResult.freqs_rel = [1/2, 1/3, 1/6] ∧
    exampleResult.C_mean = 5/9 ∧
    exampleResult.C_mean = (List.zipWith (fun f (r : ℕ) => f * (r : ℚ))
      exampleResult.freqs_rel exampleResult.ranks).sum
        / (exampleResult.ranks.length : ℚ) :=
  ⟨analyze_text_example, by decide, by decide, rfl, rfl, rfl, rfl,
    (C_mean_is_mean exampleTokens 10 exampleResult analyze_text_example).2⟩

/-- C5: whenever `analyze_text` returns a result, the theoretical
frequency list has the same length as the rank list and its entry at
rank `r` is exactly `C_opt / r`, derived from the result's own
`C_opt`. -/
theorem theor_freqs_from_C_opt (words : List String) (n : ℕ) (res : ZipfResult)
    (h : analyze_text words n = Except.ok res) :
    res.freqs_theor.length = res.ranks.length ∧
    res.freqs_theor = res.ranks.map (fun (r : ℕ) => res.C_opt / (r : ℚ)) := by
  have hw : words ≠ [] := ok_words_ne_nil h
  rw [analyze_text_ok words n hw] at h
  obtain rfl := Except.ok.inj h
  dsimp only
  exact ⟨by simp [theorFreqsI], rfl⟩

/-- C5 witness: on the worked example, `freqs_theor =
[26/49, 13/49, 26/147] = [C_opt/1, C_opt/2, C_opt/3]`. -/
theorem theor_freqs_from_C_opt_witness :
    analyze_text exampleTokens 10 = Except.ok exampleResult ∧
    exampleResult.freqs_theor = [26/49, 13/49, 26/147] ∧
    exampleResult.freqs_theor.length = exampleResult.ranks.length ∧
    exampleResult.freqs_theor
      = exampleResult.ranks.map (fun (r : ℕ) => exampleResult.C_opt / (r : ℚ)) :=
  ⟨analyze_text_example, rfl,
    (theor_freqs_from_C_opt exampleTokens 10 exampleResult analyze_text_example).1,
    (theor_freqs_from_C_opt exampleTokens 10 exampleResult analyze_text_example).2⟩

/-- C4: on a non-empty token sequence the ranked window of
`analyze_text` carries ranks `1, 2, …` (strictly increasing from 1), its
counts are non-increasing (rank 1 is a highest count), and two entries
with equal counts occur in the order of `counterItems` — the
first-encounter order of the tokens (stable tie-break, no lexicographic
key). -/
theorem ranking_invariants (words : List String) (n : ℕ) (h : words ≠ []) :
    (∃ res, analyze_text words n = Except.ok res ∧
      res.ranks = List.range' 1 (rankedItems words n).length) ∧
    List.Pairwise (· < ·) (ranksI (rankedItems words n)) ∧
    List.Pairwise (fun a b => b.2 ≤ a.2) (rankedItems words n) ∧
    (∀ l1 a l2 b l3, rankedItems words n = l1 ++ a :: (l2 ++ b :: l3) →
      a.2 = b.2 → [a, b].Sublist (counterItems words)) := by
  refine ⟨⟨_, analyze_text_ok words n h, rfl⟩, ?_, ?_, ?_⟩
  · exact List.pairwise_lt_range' 1 (rankedItems words n).length
  · exact List.Pairwise.sublist (rankedItems_sublist words n)
      (sortByCountDesc_pairwise (counterItems words))
  · intro l1 a l2 b l3 hdec hcount
    have hmc : [a, b].Sublist (most_common words) := by
      have hsub : [a, b].Sublist (rankedItems words n) := by
        rw [hdec]
        have hx : [a, b].Sublist (a :: (l2 ++ b :: l3)) :=
          (List.singleton_sublist.mpr (by simp)).cons₂ a
        exact hx.trans (List.sublist_append_right l1 _)
      exact hsub.trans (rankedItems_sublist words n)
    have hnd : (most_common words).Nodup := most_common_nodup words
    have hne2 : a ≠ b := by
      intro hab
      subst hab
      have h2 : ([a, a] : List (String × ℕ)).Nodup := hnd.sublist hmc
      simp at h2
    have hmem_a : a ∈ counterItems words :=
      (most_common_perm words).subset (hmc.subset (by simp))
    have hmem_b : b ∈ counterItems words :=
      (most_common_perm words).subset (hmc.subset (by simp))
    rcases pair_sublist_or hmem_a hmem_b hne2 with hor | hor
    · exact hor
    · exfalso
      have h3 : [b, a].Sublist (most_common words) :=
        sublist_sortByCountDesc hor (le_of_eq hcount)
      exact hne2 (pair_sublist_antisymm hnd hmc h3)

/-- C4 witness: the ranking invariants on the worked example. -/
theorem ranking_invariants_witness :
    exampleTokens ≠ [] ∧
    ((∃ res, analyze_text exampleTokens 10 = Except.ok res ∧
      res.ranks = List.range' 1 (rankedItems exampleTokens 10).length) ∧
    List.Pairwise (· < ·) (ranksI (rankedItems exampleTokens 10)) ∧
    List.Pairwise (fun a b => b.2 ≤ a.2) (rankedItems exampleTokens 10) ∧
    (∀ l1 a l2 b l3, rankedItems exampleTokens 10 = l1 ++ a :: (l2 ++ b :: l3) →
      a.2 = b.2 → [a, b].Sublist (counterItems exampleTokens))) :=
  ⟨by decide, ranking_invariants exampleTokens 10 (by decide)⟩

/-- C6: every token surviving `get_words` has length other than 1, is
not a pure-digit token, and — when its length is 2 or 3 — starts with a
Cyrillic letter; i.e. the tokenizer always discards length-1 tokens,
pure-digit tokens, and 2–3-character tokens not starting with a
Cyrillic letter. -/
theorem get_words_filter_law (text fname w : String)
    (hw : w ∈ get_words text fname) :
    w.length ≠ 1 ∧
    pyStrIsDigit w = false ∧
    (2 ≤ w.length → w.length ≤ 3 →
      ∀ c, w.toList.head? = some c → isCyrillicChar c = true) := by
  have hkeep : keepWord (BASE_STOPWORDS ++ PERSONAL_STOP fname) w = true :=
    (List.mem_filter.mp hw).2
  simp only [keepWord, Bool.and_eq_true, Bool.not_eq_true'] at hkeep
  obtain ⟨⟨⟨hstop, hdig⟩, hlen1⟩, hshort⟩ := hkeep
  refine ⟨by simpa using hlen1, hdig, ?_⟩
  intro h2 h3 c hc
  have hfir : firstCharInRussianRange w = true := by
    rcases Bool.and_eq_false_iff.mp hshort with hx | hx
    · exact absurd (by simpa using hx) (by omega)
    · simpa using hx
  rw [firstCharInRussianRange] at hfir
  cases hl : w.toList with
  | nil => rw [hl] at hc; simp at hc
  | cons c0 rest =>
    rw [hl] at hc hfir
    simp only [List.head?_cons, Option.some.injEq] at hc
    subst hc
    simp only [Bool.and_eq_true, decide_eq_true_eq] at hfir
    obtain ⟨ha, hb⟩ := hfir
    rw [Char.le_def] at ha hb
    simp only [isCyrillicChar, Bool.and_eq_true, decide_eq_true_eq]
    have ha2 : (1072 : ℕ) ≤ c0.toNat := ha
    have hb2 : c0.toNat ≤ (1103 : ℕ) := hb
    constructor
    · omega
    · omega

/-- C6 witness: on the text `"кот и пес 123 ab"`, the surviving token
`"кот"` satisfies the filter law. -/
theorem get_words_filter_law_witness :
    ("кот" ∈ get_words "кот и пес 123 ab" "x.txt") ∧
    ("кот".length ≠ 1 ∧
      pyStrIsDigit "кот" = false ∧
      (2 ≤ "кот".length → "кот".length ≤ 3 →
        ∀ c, "кот".toList.head? = some c → isCyrillicChar c = true)) :=
  ⟨by decide, get_words_filter_law "кот и пес 123 ab" "x.txt" "кот" (by decide)⟩

/-- C7 (counterexample to the claim as stated): the candidate token
`"ёж"` has length 2, its first character ё is a Cyrillic letter, it is
not a stopword and not a digit string, yet `get_words` discards it — the
source's range test `'а' <= w[0] <= 'я'` excludes ё (U+0451 lies outside
U+0430–U+044F). -/
theorem short_yo_token_dropped :
    "ёж" ∈ pyFindallWords (pyLower "ёж") ∧
    "ёж".length = 2 ∧
    "ёж".toList.head? = some 'ё' ∧
    isCyrillicChar 'ё' = true ∧
    "ёж" ∉ BASE_STOPWORDS ++ PERSONAL_STOP "x.txt" ∧
    pyStrIsDigit "ёж" = false ∧
    "ёж" ∉ get_words "ёж" "x.txt" :=
  ⟨by decide, by decide, by decide, by decide, by decide, by decide, by decide⟩

/-- C7 (amended): a candidate token of length 2–3 whose first character
lies in the range `'а'`–`'я'` (lowercase Russian а through я — this
excludes ё and non-Russian Cyrillic letters), which is not in the
effective stopword set and is not a pure-digit token, is kept. -/
theorem get_words_keeps_short_russian (text fname w : String)
    (hcand : w ∈ pyFindallWords (pyLower text))
    (h2 : 2 ≤ w.length) (h3 : w.length ≤ 3)
    (hfirst : firstCharInRussianRange w = true)
    (hstop : w ∉ BASE_STOPWORDS ++ PERSONAL_STOP fname)
    (hdig : pyStrIsDigit w = false) :
    w ∈ get_words text fname := by
  refine List.mem_filter.mpr ⟨hcand, ?_⟩
  have hlen1 : (w.length == 1) = false := by
    simp only [beq_eq_false_iff_ne, ne_eq]
    omega
  simp [keepWord, hdig, hlen1, hfirst]
  simpa using hstop

/-- C7 witness (for the amended claim): the 3-character Russian token
`"кот"` is kept. -/
theorem get_words_keeps_short_russian_witness :
    ("кот" ∈ pyFindallWords (pyLower "кот кот")) ∧
    2 ≤ "кот".length ∧ "кот".length ≤ 3 ∧
    firstCharInRussianRange "кот" = true ∧
    "кот" ∉ BASE_STOPWORDS ++ PERSONAL_STOP "y.txt" ∧
    pyStrIsDigit "кот" = false ∧
    "кот" ∈ get_words "кот кот" "y.txt" :=
  ⟨by decide, by decide, by decide, by decide, by decide, by decide,
    get_words_keeps_short_russian "кот кот" "y.txt" "кот"
      (by decide) (by decide) (by decide) (by decide) (by decide) (by decide)⟩

/-- A two-document corpus whose first document is empty (all tokens
filtered away) and whose second is the worked example text. -/
def exampleDocs : List (String × String) :=
  [("a.txt", ""), ("b.txt", "кот кот пес кот мышь пес")]

/-- C8 (counterexample to the claim as stated): in the two-document
corpus `exampleDocs`, the failure of `a.txt` (empty content) aborts the
whole run — `analyze_corpus` propagates the exception and returns no
mapping at all, so `b.txt`, which on its own analyzes fine, receives no
result. -/
theorem corpus_failure_not_isolated :
    analyze_corpus exampleDocs 200 = Except.error PyErr.zeroDivisionError ∧
    (∀ results, analyze_corpus exampleDocs 200 ≠ Except.ok results) ∧
    (∃ res, analyze_text (get_words "кот кот пес кот мышь пес" "b.txt") 200
      = Except.ok res) := by
  refine ⟨rfl, ?_, ?_⟩
  · intro results hr
    rw [show analyze_corpus exampleDocs 200
      = Except.error PyErr.zeroDivisionError from rfl] at hr
    simp at hr
  · exact ⟨_, analyze_text_ok _ 200 (by decide)⟩

/-- C8 (amended): documents are processed sequentially with no failure
isolation: if any document of the corpus fails (here: its filtered token
list is empty, so `analyze_text` raises), the whole corpus run fails
with that exception and no document receives a result. -/
theorem analyze_corpus_aborts (docs : List (String × String)) (n : ℕ)
    (d : String × String) (hd : d ∈ docs) (hfail : get_words d.2 d.1 = []) :
    analyze_corpus docs n = Except.error PyErr.zeroDivisionError := by
  induction docs with
  | nil => cases hd
  | cons x xs ih =>
    rcases List.mem_cons.mp hd with rfl | hd2
    · simp only [analyze_corpus, List.mapM_cons]
      rw [hfail, analyze_text_nil]
      rfl
    · simp only [analyze_corpus] at ih ⊢
      rw [List.mapM_cons]
      cases hres : analyze_text (get_words x.2 x.1) n with
      | error e =>
        obtain ⟨-, rfl⟩ := analyze_text_error hres
        rfl
      | ok r =>
        rw [ih hd2]
        rfl

/-- C8 witness: the amended abort behaviour, instantiated on
`exampleDocs` with the failing document `a.txt`. -/
theorem analyze_corpus_aborts_witness :
    (("a.txt", "") ∈ exampleDocs) ∧
    get_words "" "a.txt" = [] ∧
    analyze_corpus exampleDocs 200 = Except.error PyErr.zeroDivisionError :=
  ⟨by decide, by decide,
    analyze_corpus_aborts exampleDocs 200 ("a.txt", "") (by decide) (by decide)⟩

/-- C9: a positive top-N cutoff exceeding the number of distinct tokens
is clamped silently — the ranked window is the full sorted table and
`analyze_text` returns exactly what it returns with truncation disabled
(`top_n = 0`). -/
theorem top_n_clamped (words : List String) (n : ℕ) (h1 : 0 < n)
    (h2 : (counterKeys words).length < n) :
    rankedItems words n = most_common words ∧
    analyze_text words n = analyze_text words 0 := by
  have hr : rankedItems words n = most_common words := by
    rw [rankedItems, if_pos (Nat.pos_iff_ne_zero.mp h1)]
    apply List.take_of_length_le
    rw [length_most_common]
    omega
  have hr0 : rankedItems words 0 = most_common words := by
    rw [rankedItems, if_neg (by simp)]
  refine ⟨hr, ?_⟩
  unfold analyze_text
  rw [hr, hr0]

/-- C9 witness: the worked example has 3 distinct tokens, so `top_n =
10` clamps to the full table and agrees with `top_n = 0`. -/
theorem top_n_clamped_witness :
    0 < 10 ∧ (counterKeys exampleTokens).length < 10 ∧
    rankedItems exampleTokens 10 = most_common exampleTokens ∧
    analyze_text exampleTokens 10 = analyze_text exampleTokens 0 :=
  ⟨by decide, by decide,
    (top_n_clamped exampleTokens 10 (by decide) (by decide)).1,
    (top_n_clamped exampleTokens 10 (by decide) (by decide)).2⟩

/-- C10: with `top_n = 0` no truncation is applied (Python's `if top_n:`
is false): the ranked window is the full frequency table, and on
non-empty input the result covers one rank per distinct token. -/
theorem top_n_zero_full_table (words : List String) :
    rankedItems words 0 = most_common words ∧
    (words ≠ [] → ∃ res, analyze_text words 0 = Except.ok res ∧
      res.ranks.length = (counterKeys words).length ∧
      res.total_words = words.length) := by
  have hr0 : rankedItems words 0 = most_common words := by
    rw [rankedItems, if_neg (by simp)]
  refine ⟨hr0, fun hw => ⟨_, analyze_text_ok words 0 hw, ?_, rfl⟩⟩
  dsimp only
  rw [length_ranksI, hr0, length_most_common]

/-- C10 witness: on the worked example with `top_n = 0`, the full
3-entry table is used. -/
theorem top_n_zero_full_table_witness :
    rankedItems exampleTokens 0 = most_common exampleTokens ∧
    exampleTokens ≠ [] ∧
    (∃ res, analyze_text exampleTokens 0 = Except.ok res ∧
      res.ranks.length = (counterKeys exampleTokens).length ∧
      res.total_words = exampleTokens.length) :=
  ⟨(top_n_zero_full_table exampleTokens).1, by decide,
    (top_n_zero_full_table exampleTokens).2 (by decide)⟩

end Zipf
